import Mathlib

/-!
Verification of the deterministic analysis engine of the IPO prospectus
analyzer: table classification and metric time-series extraction
(table_extractor.py), risk parsing, classification, severity scoring and
aggregation (risk_analyzer.py), and the recommendation scorer (scorer.py).

Python strings are modelled as lists of characters, numeric cell values as
rationals, and a pandas cell that is NaN after numeric coercion as `none`.
Python dictionaries with insertion order appear as association lists.
-/

/-! ### Character helpers (ASCII fragment of the Python string methods) -/

/-- Whitespace characters recognised by the Python str.strip and the regex
class backslash-s, restricted to ASCII. -/
def pyIsSpace (c : Char) : Bool :=
  c == ' ' || c == '\t' || c == '\n' || c == '\r' || c == '\x0b' || c == '\x0c'

/-- Word characters of the regex class backslash-w (ASCII fragment), used by
the word-boundary assertion. -/
def isWordChar (c : Char) : Bool :=
  c.isAlphanum || c == '_'

/-- ASCII lower-casing, the fragment of Python str.lower the code relies on. -/
def pyToLower (c : Char) : Char :=
  if 'A' ≤ c && c ≤ 'Z' then Char.ofNat (c.toNat + 32) else c

/-- ASCII upper-casing, the fragment of Python str.upper the code relies on. -/
def pyToUpper (c : Char) : Char :=
  if 'a' ≤ c && c ≤ 'z' then Char.ofNat (c.toNat - 32) else c

/-- Numeric value of an ASCII digit character. -/
def digitVal (c : Char) : Nat := c.toNat - 48

/-! ### List-of-characters helpers (Python string operations) -/

/-- Tests whether the second list is a prefix of the first. -/
def listStartsWith : List Char → List Char → Bool
  | _, [] => true
  | [], _ :: _ => false
  | a :: t, b :: u => a == b && listStartsWith t u

/-- Substring containment, the semantics of the Python `in` operator on
strings: `listContains hay needle` holds when needle occurs contiguously
inside hay. -/
def listContains : List Char → List Char → Bool
  | [], needle => needle.isEmpty
  | hay@(_ :: t), needle => listStartsWith hay needle || listContains t needle

/-- Removes the longest suffix whose characters satisfy p. -/
def dropTrailing (p : Char → Bool) (l : List Char) : List Char :=
  ((l.reverse).dropWhile p).reverse

/-- Python str.strip with no argument: removes whitespace from both ends. -/
def pyStrip (l : List Char) : List Char :=
  dropTrailing pyIsSpace (l.dropWhile pyIsSpace)

/-- Python str.strip with an explicit character set: removes characters of
the set from both ends. -/
def pyStripSet (s : List Char) (l : List Char) : List Char :=
  dropTrailing (fun c => s.contains c) (l.dropWhile (fun c => s.contains c))

/-- Splits a list at every occurrence of the separator, the semantics of
Python str.split with a one-character separator. -/
def splitOnChar (sep : Char) (l : List Char) : List (List Char) :=
  l.foldr
    (fun c acc =>
      if c == sep then [] :: acc
      else
        match acc with
        | h :: t => (c :: h) :: t
        | [] => [[c]])
    [[]]

/-- Joins pieces with a single space, the semantics of the Python
idiom that joins string fragments with a space separator. -/
def joinSpace (ls : List (List Char)) : List Char :=
  List.intercalate [' '] ls

/-! ### The year pattern of table_extractor.py

The compiled pattern is (in words): a word boundary, then either a four
digit token starting with 20, or the letters FY followed by optional
whitespace and two digits, then a word boundary.  `searchYear` mirrors
re.search: leftmost position wins, the four-digit alternative is tried
first at each position. -/

/-- Word-boundary test after a match ending before post: the last matched
character of both alternatives is a word character, so the boundary holds
exactly when the next character (if any) is not a word character. -/
def noWordAhead (post : List Char) : Bool :=
  match post with
  | [] => true
  | e :: _ => !isWordChar e

/-- First alternative of the year pattern: four digits starting with 20,
with a word boundary after them; returns the matched text. -/
def tryAlt1 (s : List Char) : Option (List Char) :=
  match s with
  | a :: b :: c :: d :: rest =>
    if a == '2' && b == '0' && c.isDigit && d.isDigit && noWordAhead rest then
      some [a, b, c, d]
    else none
  | _ => none

/-- Second alternative of the year pattern: the letters FY, greedy optional
whitespace, two digits, then a word boundary; returns the matched text.
Whitespace never matches a digit, so the greedy run needs no backtracking. -/
def tryAlt2 (s : List Char) : Option (List Char) :=
  match s with
  | a :: b :: rest =>
    if a == 'F' && b == 'Y' then
      match rest.dropWhile pyIsSpace with
      | c :: d :: rest3 =>
        if c.isDigit && d.isDigit && noWordAhead rest3 then
          some (a :: b :: (rest.takeWhile pyIsSpace ++ [c, d]))
        else none
      | _ => none
    else none
  | _ => none

/-- Word-boundary test before the match: both alternatives begin with a word
character, so the boundary holds exactly when the preceding character (if
any) is not a word character. -/
def boundaryBefore (prev : Option Char) : Bool :=
  match prev with
  | none => true
  | some p => !isWordChar p

/-- Regex search for the year pattern: scans positions left to right,
carrying the previous character for the word-boundary test, and returns the
text of the leftmost match. -/
def searchYear (prev : Option Char) : List Char → Option (List Char)
  | [] => none
  | c :: rest =>
    ((if boundaryBefore prev then (tryAlt1 (c :: rest)).orElse (fun _ => tryAlt2 (c :: rest)) else none)).orElse
      (fun _ => searchYear (some c) rest)

/-- First occurrence of two consecutive digits, the semantics of searching
for the two-digit pattern inside the matched year text. -/
def firstTwoDigits : List Char → Option (Char × Char)
  | [] => none
  | [_] => none
  | a :: b :: rest =>
    if a.isDigit && b.isDigit then some (a, b) else firstTwoDigits (b :: rest)

/-- Numeric value of a string of digits, the semantics of Python int on an
all-digit string. -/
def natFromDigits (l : List Char) : Nat :=
  l.foldl (fun acc c => acc * 10 + digitVal c) 0

/-- Test used by _extract_year: whether the upper-cased matched text
contains the letters FY. -/
def containsFY (ys : List Char) : Bool :=
  listContains (ys.map pyToUpper) ['F', 'Y']

/-- Model of TableExtractor._extract_year: searches the year pattern in the
column name; on an FY-style match adds 2000 to the two-digit year, otherwise
converts the four-digit match with int.  Python int would raise on a
non-digit string, modelled by none; that branch is unreachable because the
non-FY match is always four digits. -/
def extractYear (col : List Char) : Option ℤ :=
  match searchYear none col with
  | none => none
  | some ys =>
    if containsFY ys then
      match firstTwoDigits ys with
      | some (c, d) => some (2000 + (10 * digitVal c + digitVal d : ℕ))
      | none => none
    else
      if ys.all Char.isDigit then some ((natFromDigits ys : ℕ) : ℤ) else none

/-! ### Financial tables (table_extractor.py)

A table is a label column plus value columns.  Cell values are modelled
after the numeric coercion pandas to_numeric applies with coercing errors:
a rational for a numeric-coercible cell, none for NaN or a non-numeric
cell. -/

/-- Financial table: value-column headers (the columns after the label
column) and rows, each a label paired with its cells, positionally aligned
with the headers. -/
structure FinTable where
  headers : List (List Char)
  rows : List (List Char × List (Option ℚ))

/-- A table is rectangular when every row has one cell per value column. -/
def FinTable.rect (t : FinTable) : Prop :=
  ∀ r ∈ t.rows, r.2.length = t.headers.length

/-- Header test used by _process_financial_table: the year pattern occurs
in the column name. -/
def isYearHeader (h : List Char) : Bool :=
  (searchYear none h).isSome

/-- Keeps the cells of the columns whose header is year-recognised,
mirroring the column selection on a single row. -/
def keepYearCells (headers : List (List Char)) (cells : List (Option ℚ)) : List (Option ℚ) :=
  (((headers.zip cells).filter (fun p => isYearHeader p.1)).map (fun p => p.2))

/-- Model of TableExtractor._process_financial_table: when some column
header matches the year pattern, keep only those columns; coerce cells to
numeric (already reflected in the cell type); drop rows whose value cells
are all missing; strip whitespace from the row labels. -/
def processFinancialTable (t : FinTable) : FinTable :=
  if t.headers.any isYearHeader then
    { headers := t.headers.filter isYearHeader
      rows := ((t.rows.map (fun r => (pyStrip r.1, keepYearCells t.headers r.2))).filter
        (fun r => r.2.any (fun c => c.isSome))) }
  else
    { headers := t.headers
      rows := ((t.rows.map (fun r => (pyStrip r.1, r.2))).filter
        (fun r => r.2.any (fun c => c.isSome))) }

/-- Alias table of extract_metric_timeseries: known metric names map to
their label substrings; an unknown metric name is its own single alias. -/
def metricPatterns (metric : String) : List (List Char) :=
  if metric == "revenue" then
    [("revenue").toList, ("total revenue").toList, ("net revenue").toList,
     ("sales").toList, ("total income").toList]
  else if metric == "ebitda" then [("ebitda").toList, ("earnings before interest").toList]
  else if metric == "ebit" then [("ebit").toList, ("operating profit").toList]
  else if metric == "pat" then [("pat").toList, ("profit after tax").toList, ("net profit").toList]
  else if metric == "total_assets" then [("total assets").toList]
  else if metric == "total_liabilities" then [("total liabilities").toList]
  else if metric == "equity" then
    [("equity").toList, ("shareholders equity").toList, ("total equity").toList]
  else if metric == "total_debt" then [("total debt").toList, ("borrowings").toList]
  else if metric == "cash" then [("cash").toList, ("cash and cash equivalents").toList]
  else [metric.toList]

/-- Insertion into a Python dict modelled as an association list: an
existing key is updated in place, a new key is appended. -/
def dictInsert (d : List (ℤ × ℚ)) (k : ℤ) (v : ℚ) : List (ℤ × ℚ) :=
  if d.any (fun p => p.1 == k) then
    d.map (fun p => if p.1 == k then (k, v) else p)
  else d ++ [(k, v)]

/-- Contribution of one column of a row: the year-value pair when the
header yields a year (the Python truthiness test also excludes a zero
year) and the cell is present, nothing otherwise. -/
def seriesCell (p : List Char × Option ℚ) : Option (ℤ × ℚ) :=
  match extractYear p.1, p.2 with
  | some y, some v => if y == 0 then none else some (y, v)
  | _, _ => none

/-- Series built from one row: for each value column in order, the
contributing pairs enter the dict. -/
def rowSeries (headers : List (List Char)) (cells : List (Option ℚ)) : List (ℤ × ℚ) :=
  (headers.zip cells).foldl
    (fun d p =>
      match seriesCell p with
      | some yv => dictInsert d yv.1 yv.2
      | none => d)
    []

/-- Pure counterpart of rowSeries used in proofs: the same pairs collected
by filterMap.  It coincides with rowSeries when the recognised years of the
headers are distinct. -/
def rowSeriesAux (headers : List (List Char)) (cells : List (Option ℚ)) : List (ℤ × ℚ) :=
  (headers.zip cells).filterMap seriesCell

/-- Label test of extract_metric_timeseries: some alias occurs in the
lower-cased row label. -/
def rowMatches (pats : List (List Char)) (label : List Char) : Bool :=
  pats.any (fun pat => listContains (label.map pyToLower) pat)

/-- Row scan of extract_metric_timeseries: rows are visited top to bottom;
on a row whose label contains an alias the series of that row is built and
returned when it is non-empty, otherwise the scan continues. -/
def findMetricRow (pats : List (List Char)) (headers : List (List Char)) :
    List (List Char × List (Option ℚ)) → List (ℤ × ℚ)
  | [] => []
  | r :: rest =>
    if rowMatches pats r.1 then
      if (rowSeries headers r.2).isEmpty then findMetricRow pats headers rest
      else rowSeries headers r.2
    else findMetricRow pats headers rest

/-- Model of TableExtractor.extract_metric_timeseries: resolves the alias
list for the metric and scans the rows; an empty table yields the empty
mapping. -/
def extractMetricTimeseries (t : FinTable) (metric : String) : List (ℤ × ℚ) :=
  findMetricRow (metricPatterns metric) t.headers t.rows

/-! ### Statement-type identification (table_extractor.py) -/

/-- Raw table as seen by _identify_statement_type: the column headers and
the values of the first (label) column. -/
structure RawTable where
  headers : List (List Char)
  labels : List (List Char)

/-- Combined lower-case text built by _identify_statement_type: the headers
joined with spaces, a space, then the label-column values joined with
spaces. -/
def combinedText (t : RawTable) : List Char :=
  joinSpace (t.headers.map (fun h => h.map pyToLower)) ++
    ' ' :: joinSpace (t.labels.map (fun h => h.map pyToLower))

/-- Keywords indicating a profit-and-loss statement. -/
def plKeywords : List (List Char) :=
  [("revenue").toList, ("income statement").toList, ("profit").toList, ("expenditure").toList]

/-- Keywords indicating a balance sheet. -/
def bsKeywords : List (List Char) :=
  [("balance sheet").toList, ("assets").toList, ("liabilities").toList, ("equity").toList]

/-- Keywords indicating a cash-flow statement. -/
def cfKeywords : List (List Char) :=
  [("cash flow").toList, ("operating activities").toList, ("investing activities").toList]

/-- Presence of a profit-and-loss keyword in the combined text. -/
def plHit (t : RawTable) : Bool :=
  plKeywords.any (fun w => listContains (combinedText t) w)

/-- Presence of a balance-sheet keyword in the combined text. -/
def bsHit (t : RawTable) : Bool :=
  bsKeywords.any (fun w => listContains (combinedText t) w)

/-- Presence of a cash-flow keyword in the combined text. -/
def cfHit (t : RawTable) : Bool :=
  cfKeywords.any (fun w => listContains (combinedText t) w)

/-- Model of TableExtractor._identify_statement_type: first keyword set with
a hit wins, in the fixed order profit-and-loss, balance sheet, cash flow;
otherwise no type. -/
def identifyStatementType (t : RawTable) : Option String :=
  if plHit t then some ("profit_loss")
  else if bsHit t then some ("balance_sheet")
  else if cfHit t then some ("cash_flow")
  else none

/-! ### Risk parsing (risk_analyzer.py) -/

/-- Risk record: title, description, and the category and severity fields
that later stages fill in. -/
structure RiskRecord where
  title : List Char
  description : List Char
  category : Option String
  severity : Option String
deriving DecidableEq, Repr

/-- Character set the parser strips around titles: digits, period, hyphen,
closing parenthesis and space. -/
def titleStripSet : List Char := ("0123456789.-) ").toList

/-- Splits a line at its first colon, the semantics of Python str.split
with a colon separator and a limit of one split: the part before the colon
and, when a colon exists, the part after it. -/
def splitFirstColon : List Char → List Char × Option (List Char)
  | [] => ([], none)
  | c :: rest =>
    if c == ':' then ([], some rest)
    else
      match splitFirstColon rest with
      | (before, after) => (c :: before, after)

/-- Record built from one qualifying line: split at the first colon; with a
colon the title is the first part stripped of the title character set and
the description is the second part stripped of whitespace; without one the
whole line stripped of the title character set becomes the title and the
description is empty.  Category and severity start unset. -/
def riskRecordOfLine (line : List Char) : RiskRecord :=
  match splitFirstColon line with
  | (before, some after) =>
    { title := pyStripSet titleStripSet before
      description := pyStrip after
      category := none
      severity := none }
  | (_, none) =>
    { title := pyStripSet titleStripSet line
      description := []
      category := none
      severity := none }

/-- Line loop of _parse_risk_response: each line is whitespace-stripped;
blank lines are skipped; a line qualifies when its first character is a
digit or the line starts with a hyphen; qualifying lines append a record
and every other line is dropped. -/
def parseLines : List (List Char) → List RiskRecord
  | [] => []
  | l :: rest =>
    match pyStrip l with
    | [] => parseLines rest
    | c :: line' =>
      if c.isDigit || c == '-' then
        riskRecordOfLine (c :: line') :: parseLines rest
      else parseLines rest

/-- Model of RiskAnalyzer._parse_risk_response: splits the response into
lines and runs the line loop. -/
def parseRiskResponse (response : List Char) : List RiskRecord :=
  parseLines (splitOnChar '\n' response)

/-! ### Risk classification (risk_analyzer.py) -/

/-- Lower-cased concatenation of title, a space and description, the text
both the classifier and the severity scorer inspect. -/
def riskText (r : RiskRecord) : List Char :=
  (r.title ++ ' ' :: r.description).map pyToLower

/-- Fixed category list with its keyword triggers, in declaration order. -/
def riskCategories : List (String × List (List Char)) :=
  [("business_risk", [("business model").toList, ("operations").toList, ("product").toList]),
   ("financial_risk",
     [("debt").toList, ("cash flow").toList, ("profitability").toList, ("liquidity").toList]),
   ("operational_risk",
     [("supply chain").toList, ("manufacturing").toList, ("capacity").toList]),
   ("regulatory_risk",
     [("government").toList, ("regulation").toList, ("compliance").toList, ("policy").toList]),
   ("legal_risk", [("litigation").toList, ("legal proceedings").toList, ("lawsuit").toList]),
   ("market_risk", [("competition").toList, ("market share").toList, ("pricing").toList]),
   ("promoter_risk", [("promoter").toList, ("management").toList, ("related party").toList]),
   ("customer_concentration_risk",
     [("customer concentration").toList, ("major customers").toList])]

/-- Number of keyword triggers of one category that occur in the text. -/
def categoryScore (text : List Char) (kws : List (List Char)) : Nat :=
  (kws.filter (fun k => listContains text k)).length

/-- Scan of the Python max with a key function over a dict: keeps the
current best and replaces it only on a strictly greater score, so the first
maximal entry wins. -/
def maxGo (c : String) (s : Nat) : List (String × Nat) → String
  | [] => c
  | (c', s') :: t => if s < s' then maxGo c' s' t else maxGo c s t

/-- Python max with a key function over a non-empty association list. -/
def maxKeyFirst : List (String × Nat) → Option String
  | [] => none
  | (c, s) :: t => some (maxGo c s t)

/-- Scores of all categories against a text, in declaration order. -/
def scoredCategories (text : List Char) : List (String × Nat) :=
  riskCategories.map (fun p => (p.1, categoryScore text p.2))

/-- Scores of all categories against a text, in declaration order, with the
zero-scoring categories removed, mirroring the category_scores dict. -/
def categoryScores (text : List Char) : List (String × Nat) :=
  (scoredCategories text).filter (fun p => 0 < p.2)

/-- Model of RiskAnalyzer._classify_single_risk: the first category with the
highest positive score wins; with no positive score the result is the
fallback category. -/
def classifySingleRisk (r : RiskRecord) : String :=
  match maxKeyFirst (categoryScores (riskText r)) with
  | some c => c
  | none => "other"

/-! ### Risk severity (risk_analyzer.py) -/

/-- High-severity indicator phrases. -/
def highIndicators : List (List Char) :=
  [("significant").toList, ("material").toList, ("substantial").toList, ("major").toList,
   ("critical").toList, ("severe").toList, ("adversely affect").toList, ("inability").toList,
   ("failure").toList, ("default").toList, ("litigation").toList, ("regulatory action").toList]

/-- Medium-severity indicator phrases. -/
def mediumIndicators : List (List Char) :=
  [("may affect").toList, ("could impact").toList, ("potential").toList, ("possible").toList,
   ("risk of").toList, ("uncertainty").toList, ("dependent").toList, ("reliant").toList]

/-- Number of high-severity indicators present in the text of a risk. -/
def highCount (r : RiskRecord) : Nat :=
  (highIndicators.filter (fun k => listContains (riskText r) k)).length

/-- Number of medium-severity indicators present in the text of a risk. -/
def mediumCount (r : RiskRecord) : Nat :=
  (mediumIndicators.filter (fun k => listContains (riskText r) k)).length

/-- Model of RiskAnalyzer._assess_risk_severity: High on at least two high
indicators, else Medium on at least one high indicator or at least two
medium indicators, else Low. -/
def assessRiskSeverity (r : RiskRecord) : String :=
  if 2 ≤ highCount r then "High"
  else if 1 ≤ highCount r ∨ 2 ≤ mediumCount r then "Medium"
  else "Low"

/-! ### Risk score aggregation (risk_analyzer.py) -/

/-- Severity tier of a classified risk record. -/
inductive Severity where
  | High : Severity
  | Medium : Severity
  | Low : Severity
deriving DecidableEq, Repr

/-- Weight table of get_risk_score. -/
def severityWeight : Severity → ℚ
  | Severity.High => 3
  | Severity.Medium => 2
  | Severity.Low => 1

/-- Inner loop of get_risk_score over the risks of one category, carrying
the running weighted sum and count. -/
def riskFoldCat (acc : ℚ × ℕ) (risks : List Severity) : ℚ × ℕ :=
  risks.foldl (fun a s => (a.1 + severityWeight s, a.2 + 1)) acc

/-- Model of RiskAnalyzer.get_risk_score over the severity analysis, an
association list of categories with the severities of their risks: averages
the weights of all risks and scales the average to a 0 to 100 range, with 0
on no risks. -/
def riskAccum (severityAnalysis : List (String × List Severity)) : ℚ × ℕ :=
  severityAnalysis.foldl (fun acc p => riskFoldCat acc p.2) ((0 : ℚ), (0 : ℕ))

def getRiskScore (severityAnalysis : List (String × List Severity)) : ℚ :=
  if (riskAccum severityAnalysis).2 = 0 then 0
  else min (((riskAccum severityAnalysis).1 / ((riskAccum severityAnalysis).2 : ℕ)) / 3 * 100) 100

/-! ### Recommendation engine (scorer.py) -/

/-- Financial inputs read by _score_financials: the 3-year revenue CAGR
when present, and the values of the EBITDA-margin and debt-to-equity
mappings in insertion (year) order. -/
structure FinancialData where
  revenueCagr3y : Option ℚ
  ebitdaMarginValues : List ℚ
  debtToEquityValues : List ℚ

/-- Revenue-growth block of _score_financials: runs under the Python
truthiness test (skipped for a missing or zero CAGR) and adds the tier
bonus to the running score. -/
def cagrStep (score : ℚ) (o : Option ℚ) : ℚ :=
  match o with
  | none => score
  | some c =>
    if c == 0 then score
    else if 20 < c then score + 15
    else if 10 < c then score + 10
    else if 5 < c then score + 5
    else score

/-- Margin block of _score_financials: runs on a non-empty mapping and adds
the tier bonus of the latest value to the running score. -/
def marginStep (score : ℚ) (vs : List ℚ) : ℚ :=
  match vs with
  | [] => score
  | _ :: _ =>
    if 20 < vs.getLastD 0 then score + 15
    else if 10 < vs.getLastD 0 then score + 10
    else if 5 < vs.getLastD 0 then score + 5
    else score

/-- Leverage block of _score_financials: runs on a non-empty mapping and
adjusts the running score by the tier bonus of the latest value. -/
def deStep (score : ℚ) (vs : List ℚ) : ℚ :=
  match vs with
  | [] => score
  | _ :: _ =>
    if vs.getLastD 0 < 1/2 then score + 10
    else if vs.getLastD 0 < 1 then score + 5
    else if 2 < vs.getLastD 0 then score - 10
    else score

/-- Model of RecommendationEngine._score_financials: base 50, then the
three sequential signal-group blocks, then the clamp to the 0 to 100
range. -/
def scoreFinancials (d : FinancialData) : ℚ :=
  min (max (deStep (marginStep (cagrStep 50 d.revenueCagr3y) d.ebitdaMarginValues)
    d.debtToEquityValues) 0) 100

/-- Model of RecommendationEngine._score_risk over the risk-analysis
mapping, an association list from keys to numeric values: an empty mapping
scores 50, otherwise the risk_score entry (default 50) is inverted. -/
def scoreRisk (riskAnalysis : List (String × ℚ)) : ℚ :=
  match riskAnalysis with
  | [] => 50
  | _ :: _ =>
    match riskAnalysis.lookup ("risk_score") with
    | some v => 100 - v
    | none => 100 - 50

/-- Component scores as passed to calculate_overall_score; a component can
be absent from the mapping. -/
structure Scores where
  business : Option ℚ
  financial : Option ℚ
  industry : Option ℚ
  risk : Option ℚ
  valuation : Option ℚ

/-- Python round to the nearest integer with ties to even. -/
def roundHalfEven (q : ℚ) : ℤ :=
  if Int.fract q < 1/2 then ⌊q⌋
  else if 1/2 < Int.fract q then ⌊q⌋ + 1
  else if ⌊q⌋ % 2 == 0 then ⌊q⌋ else ⌊q⌋ + 1

/-- Python round with one decimal digit. -/
def roundTo1 (q : ℚ) : ℚ := (roundHalfEven (10 * q) : ℚ) / 10

/-- Model of RecommendationEngine.calculate_overall_score: the weighted sum
over the five components in the order of the weights mapping, a missing
component defaulting to 50, rounded to one decimal. -/
def calculateOverallScore (s : Scores) : ℚ :=
  roundTo1
    (s.business.getD 50 * (25/100) + s.financial.getD 50 * (30/100) +
     s.industry.getD 50 * (20/100) + s.risk.getD 50 * (15/100) +
     s.valuation.getD 50 * (10/100))

/-- Model of RecommendationEngine.determine_stance: thresholds 75, 60 and
50 checked in descending order. -/
def determineStance (overallScore : ℚ) : String :=
  if 75 ≤ overallScore then "Conservative - Positive"
  else if 60 ≤ overallScore then "Neutral"
  else if 50 ≤ overallScore then "Aggressive - Speculative"
  else "Avoid"

/-! ### Specification-side formulations used to state the claims -/

/-- Tier bonus of the revenue-CAGR signal group as the specification states
it; a missing input contributes zero. -/
def cagrBonusSpec : Option ℚ → ℚ
  | none => 0
  | some c => if 20 < c then 15 else if 10 < c then 10 else if 5 < c then 5 else 0

/-- Tier bonus of the latest-EBITDA-margin signal group as the
specification states it; a missing input contributes zero. -/
def marginBonusSpec (vs : List ℚ) : ℚ :=
  if vs.isEmpty then 0
  else if 20 < vs.getLastD 0 then 15
  else if 10 < vs.getLastD 0 then 10
  else if 5 < vs.getLastD 0 then 5
  else 0

/-- Tier bonus of the latest-debt-to-equity signal group as the
specification states it; a missing input contributes zero. -/
def deBonusSpec (vs : List ℚ) : ℚ :=
  if vs.isEmpty then 0
  else if vs.getLastD 0 < 1/2 then 10
  else if vs.getLastD 0 < 1 then 5
  else if 2 < vs.getLastD 0 then -10
  else 0

/-- Score mapping with every missing component replaced by the neutral
value 50. -/
def fillScores (s : Scores) : Scores :=
  { business := some (s.business.getD 50)
    financial := some (s.financial.getD 50)
    industry := some (s.industry.getD 50)
    risk := some (s.risk.getD 50)
    valuation := some (s.valuation.getD 50) }

/-! ### Claim C4: stance thresholds -/

lemma stance_cp_iff (s : ℚ) : determineStance s = "Conservative - Positive" ↔ 75 ≤ s := by
  unfold determineStance
  split_ifs with h1 h2 h3
  · exact iff_of_true rfl h1
  · exact iff_of_false (by decide) h1
  · exact iff_of_false (by decide) h1
  · exact iff_of_false (by decide) h1

lemma stance_neutral_iff (s : ℚ) : determineStance s = "Neutral" ↔ 60 ≤ s ∧ s < 75 := by
  unfold determineStance
  split_ifs with h1 h2 h3
  · exact iff_of_false (by decide) (fun h => absurd h1 (not_le.mpr h.2))
  · exact iff_of_true rfl ⟨h2, not_le.mp h1⟩
  · exact iff_of_false (by decide) (fun h => h2 h.1)
  · exact iff_of_false (by decide) (fun h => h2 h.1)

lemma stance_aggr_iff (s : ℚ) : determineStance s = "Aggressive - Speculative" ↔ 50 ≤ s ∧ s < 60 := by
  unfold determineStance
  split_ifs with h1 h2 h3
  · exact iff_of_false (by decide)
      (fun h => absurd h1 (not_le.mpr (lt_of_lt_of_le h.2 (by norm_num))))
  · exact iff_of_false (by decide) (fun h => absurd h2 (not_le.mpr h.2))
  · exact iff_of_true rfl ⟨h3, not_le.mp h2⟩
  · exact iff_of_false (by decide) (fun h => h3 h.1)

lemma stance_avoid_iff (s : ℚ) : determineStance s = "Avoid" ↔ s < 50 := by
  unfold determineStance
  split_ifs with h1 h2 h3
  · exact iff_of_false (by decide) (not_lt.mpr (le_trans (by norm_num) h1))
  · exact iff_of_false (by decide) (not_lt.mpr (le_trans (by norm_num) h2))
  · exact iff_of_false (by decide) (not_lt.mpr h3)
  · exact iff_of_true rfl (not_le.mp h3)

/-- Claim C4: determine_stance maps a score to Conservative-Positive
exactly when it is at least 75, to Neutral exactly when it is at least 60
and below 75, to Aggressive-Speculative exactly when it is at least 50 and
below 60, and to Avoid exactly when it is below 50; in particular 80, 65,
55 and 45 map to the four stances respectively. -/
theorem claim_c4_determine_stance (s : ℚ) :
    (determineStance s = "Conservative - Positive" ↔ 75 ≤ s) ∧
    (determineStance s = "Neutral" ↔ 60 ≤ s ∧ s < 75) ∧
    (determineStance s = "Aggressive - Speculative" ↔ 50 ≤ s ∧ s < 60) ∧
    (determineStance s = "Avoid" ↔ s < 50) ∧
    determineStance 80 = "Conservative - Positive" ∧
    determineStance 65 = "Neutral" ∧
    determineStance 55 = "Aggressive - Speculative" ∧
    determineStance 45 = "Avoid" := by
  refine ⟨stance_cp_iff s, stance_neutral_iff s, stance_aggr_iff s, stance_avoid_iff s, ?_, ?_, ?_, ?_⟩
  · exact (stance_cp_iff 80).mpr (by norm_num)
  · exact (stance_neutral_iff 65).mpr (by norm_num)
  · exact (stance_aggr_iff 55).mpr (by norm_num)
  · exact (stance_avoid_iff 45).mpr (by norm_num)

/-! ### Claim C5: financial sub-score -/

lemma cagrStep_eq (s : ℚ) (o : Option ℚ) : cagrStep s o = s + cagrBonusSpec o := by
  cases o with
  | none => simp [cagrStep, cagrBonusSpec]
  | some c =>
    by_cases hc : c = 0
    · subst hc
      simp only [cagrStep, cagrBonusSpec, beq_self_eq_true, if_true]
      split_ifs <;> (first | ring1 | linarith)
    · simp only [cagrStep, cagrBonusSpec, beq_iff_eq, if_neg hc]
      split_ifs <;> ring

lemma marginStep_eq (s : ℚ) (vs : List ℚ) : marginStep s vs = s + marginBonusSpec vs := by
  cases vs with
  | nil => simp [marginStep, marginBonusSpec]
  | cons a t =>
    simp only [marginStep, marginBonusSpec, List.isEmpty_cons, Bool.false_eq_true, if_false]
    split_ifs <;> ring

lemma deStep_eq (s : ℚ) (vs : List ℚ) : deStep s vs = s + deBonusSpec vs := by
  cases vs with
  | nil => simp [deStep, deBonusSpec]
  | cons a t =>
    simp only [deStep, deBonusSpec, List.isEmpty_cons, Bool.false_eq_true, if_false]
    split_ifs <;> ring

/-- Claim C5: _score_financials equals the base 50 plus the three
independent signal-group tier bonuses of the specification, clamped to the
0 to 100 range, and a fully missing input scores exactly the base 50. -/
theorem claim_c5_score_financials (d : FinancialData) :
    scoreFinancials d =
      min (max (50 + cagrBonusSpec d.revenueCagr3y + marginBonusSpec d.ebitdaMarginValues +
        deBonusSpec d.debtToEquityValues) 0) 100 ∧
    scoreFinancials { revenueCagr3y := none, ebitdaMarginValues := [], debtToEquityValues := [] } = 50 := by
  constructor
  · rw [scoreFinancials, cagrStep_eq, marginStep_eq, deStep_eq]
  · norm_num [scoreFinancials, cagrStep, marginStep, deStep]

/-! ### Claim C10: neutral defaults for missing scoring inputs -/

/-- Score mapping with no component present. -/
def emptyScores : Scores :=
  { business := none, financial := none, industry := none, risk := none, valuation := none }

/-- Claim C10: calculate_overall_score substitutes the neutral value 50 for
every component absent from the score mapping (filling the mapping with 50
first changes nothing), the fully empty mapping still yields the defined
overall score 50 and a defined stance, and _score_risk returns 50 when the
risk-analysis mapping is empty or lacks a risk_score entry. -/
theorem claim_c10_missing_defaults :
    (∀ s : Scores, calculateOverallScore s = calculateOverallScore (fillScores s)) ∧
    calculateOverallScore emptyScores = 50 ∧
    determineStance (calculateOverallScore emptyScores) = "Aggressive - Speculative" ∧
    scoreRisk [] = 50 ∧
    (∀ ra : List (String × ℚ), ra.lookup ("risk_score") = none → scoreRisk ra = 50) := by
  have hempty : calculateOverallScore emptyScores = 50 := by
    unfold calculateOverallScore emptyScores roundTo1 roundHalfEven
    norm_num [Int.fract]
  refine ⟨fun s => rfl, hempty, ?_, rfl, ?_⟩
  · rw [hempty]; unfold determineStance; norm_num
  · intro ra h
    cases ra with
    | nil => rfl
    | cons a t => simp only [scoreRisk, h]; norm_num

/-- Witness for claim C10: a risk-analysis mapping that is non-empty but
has no risk_score entry scores 50. -/
theorem claim_c10_missing_defaults_witness :
    ([(("total_risks" : String), (15 : ℚ))].lookup ("risk_score") = none) ∧
      scoreRisk [(("total_risks" : String), (15 : ℚ))] = 50 :=
  ⟨by decide, claim_c10_missing_defaults.2.2.2.2 [(("total_risks" : String), (15 : ℚ))] (by decide)⟩

/-! ### Claim C3: severity assessment -/

/-- Claim C3: _assess_risk_severity returns High exactly when at least two
high-severity indicators occur in the lower-cased title-and-description
text, Medium exactly when that fails but at least one high indicator or at
least two medium indicators occur, and Low exactly otherwise. -/
theorem claim_c3_assess_severity (r : RiskRecord) :
    (assessRiskSeverity r = "High" ↔ 2 ≤ highCount r) ∧
    (assessRiskSeverity r = "Medium" ↔
      highCount r < 2 ∧ (1 ≤ highCount r ∨ 2 ≤ mediumCount r)) ∧
    (assessRiskSeverity r = "Low" ↔ highCount r = 0 ∧ mediumCount r ≤ 1) := by
  unfold assessRiskSeverity
  split_ifs with h1 h2
  · exact ⟨iff_of_true rfl h1, iff_of_false (by decide) (by omega),
      iff_of_false (by decide) (by omega)⟩
  · exact ⟨iff_of_false (by decide) (by omega), iff_of_true rfl (by omega),
      iff_of_false (by decide) (by omega)⟩
  · exact ⟨iff_of_false (by decide) (by omega), iff_of_false (by decide) (by omega),
      iff_of_true rfl (by omega)⟩

/-! ### Claim C2: risk score aggregation -/

lemma riskFoldCat_eq (acc : ℚ × ℕ) (l : List Severity) :
    riskFoldCat acc l = (acc.1 + (l.map severityWeight).sum, acc.2 + l.length) := by
  induction l generalizing acc with
  | nil => simp [riskFoldCat]
  | cons s t ih =>
    have h := ih (acc.1 + severityWeight s, acc.2 + 1)
    simp only [riskFoldCat, List.foldl_cons] at h ⊢
    rw [h]
    simp only [List.map_cons, List.sum_cons, List.length_cons, Prod.mk.injEq]
    exact ⟨by ring, by omega⟩

lemma riskAccum_eq (sa : List (String × List Severity)) :
    riskAccum sa =
      ((((sa.map Prod.snd).flatten).map severityWeight).sum,
        ((sa.map Prod.snd).flatten).length) := by
  suffices h : ∀ acc : ℚ × ℕ,
      sa.foldl (fun a p => riskFoldCat a p.2) acc =
        (acc.1 + (((sa.map Prod.snd).flatten).map severityWeight).sum,
          acc.2 + ((sa.map Prod.snd).flatten).length) by
    have := h ((0 : ℚ), (0 : ℕ))
    simpa [riskAccum] using this
  induction sa with
  | nil => intro acc; simp
  | cons p t ih =>
    intro acc
    simp only [List.foldl_cons, List.map_cons, List.flatten_cons]
    rw [ih, riskFoldCat_eq]
    simp only [List.map_append, List.sum_append, List.length_append, Prod.mk.injEq]
    exact ⟨by ring, by omega⟩

/-- Claim C2: get_risk_score averages the weights 3, 2 and 1 of High,
Medium and Low over all risk records regardless of category and scales the
average with the formula of the specification; it is 0 on no records, 100
on all-High records, and 100 divided by 3 on a single Low record. -/
theorem claim_c2_get_risk_score (sa : List (String × List Severity)) :
    ((sa.map Prod.snd).flatten = [] → getRiskScore sa = 0) ∧
    ((sa.map Prod.snd).flatten ≠ [] → getRiskScore sa =
      min (((((sa.map Prod.snd).flatten).map severityWeight).sum /
        ((((sa.map Prod.snd).flatten).length : ℕ) : ℚ)) / 3 * 100) 100) ∧
    getRiskScore [] = 0 ∧
    getRiskScore [(("regulatory_risk" : String),
      [Severity.High, Severity.High, Severity.High])] = 100 ∧
    getRiskScore [(("financial_risk" : String), [Severity.Low])] = 100 / 3 := by
  refine ⟨?_, ?_, by decide, ?_, ?_⟩
  · intro h
    unfold getRiskScore
    rw [riskAccum_eq]
    simp [h]
  · intro h
    have hlen : ((sa.map Prod.snd).flatten).length ≠ 0 :=
      fun h0 => h (List.length_eq_zero.mp h0)
    unfold getRiskScore
    rw [riskAccum_eq]
    simp only []
    rw [if_neg hlen]
  · norm_num [getRiskScore, riskAccum, riskFoldCat, severityWeight]
  · norm_num [getRiskScore, riskAccum, riskFoldCat, severityWeight]

/-- Witness for claim C2: one category with a single High record; the
average weight is 3 and the score is the scaled and capped formula value. -/
theorem claim_c2_get_risk_score_witness :
    getRiskScore [(("a" : String), [Severity.High])] =
      min ((((([(("a" : String), [Severity.High])]).map Prod.snd).flatten.map severityWeight).sum /
        (((([(("a" : String), [Severity.High])]).map Prod.snd).flatten.length : ℕ) : ℚ)) / 3 * 100) 100 :=
  (claim_c2_get_risk_score [(("a" : String), [Severity.High])]).2.1 (by decide)

/-! ### Claim C7: statement-type identification -/

/-- Claim C7: _identify_statement_type decides on the combined lower-case
text of headers and label column by first-match priority over the three
keyword sets and yields no type exactly when none hits; any table whose
combined text contains both revenue and equity is classified as
profit-and-loss. -/
theorem claim_c7_identify_statement_type (t : RawTable) :
    (identifyStatementType t = some ("profit_loss") ↔ plHit t = true) ∧
    (identifyStatementType t = some ("balance_sheet") ↔ plHit t = false ∧ bsHit t = true) ∧
    (identifyStatementType t = some ("cash_flow") ↔
      plHit t = false ∧ bsHit t = false ∧ cfHit t = true) ∧
    (identifyStatementType t = none ↔
      plHit t = false ∧ bsHit t = false ∧ cfHit t = false) ∧
    (listContains (combinedText t) (("revenue").toList) = true →
      listContains (combinedText t) (("equity").toList) = true →
      identifyStatementType t = some ("profit_loss")) := by
  have hrev : listContains (combinedText t) (("revenue").toList) = true → plHit t = true := by
    intro h
    exact List.any_eq_true.mpr ⟨("revenue").toList, by decide, h⟩
  unfold identifyStatementType
  split_ifs with h1 h2 h3
  · refine ⟨iff_of_true rfl h1, iff_of_false (by decide) ?_, iff_of_false (by decide) ?_,
      iff_of_false (by decide) ?_, fun _ _ => rfl⟩
    · exact fun h => by rw [h1] at h; simp at h
    · exact fun h => by rw [h1] at h; simp at h
    · exact fun h => by rw [h1] at h; simp at h
  · refine ⟨iff_of_false (by decide) h1, iff_of_true rfl ⟨by simpa using h1, h2⟩,
      iff_of_false (by decide) ?_, iff_of_false (by decide) ?_, ?_⟩
    · exact fun h => by rw [h2] at h; simp at h
    · exact fun h => by rw [h2] at h; simp at h
    · exact fun hr _ => absurd (hrev hr) h1
  · refine ⟨iff_of_false (by decide) h1, iff_of_false (by decide) (fun h => h2 h.2),
      iff_of_true rfl ⟨by simpa using h1, by simpa using h2, h3⟩,
      iff_of_false (by decide) ?_, ?_⟩
    · exact fun h => by rw [h3] at h; simp at h
    · exact fun hr _ => absurd (hrev hr) h1
  · exact ⟨iff_of_false (by decide) h1, iff_of_false (by decide) (fun h => h2 h.2),
      iff_of_false (by decide) (fun h => h3 h.2.2),
      iff_of_true rfl ⟨by simpa using h1, by simpa using h2, by simpa using h3⟩,
      fun hr _ => absurd (hrev hr) h1⟩

/-! ### Claim C6: risk classification with first-maximum tie-break -/

lemma maxGo_of_all_le (c : String) (s : Nat) (t : List (String × Nat))
    (h : ∀ p ∈ t, p.2 ≤ s) : maxGo c s t = c := by
  induction t with
  | nil => rfl
  | cons q t ih =>
    obtain ⟨c', s'⟩ := q
    have hle : s' ≤ s := h (c', s') (List.mem_cons_self _ _)
    simp only [maxGo, if_neg (not_lt.mpr hle)]
    exact ih (fun p hp => h p (List.mem_cons_of_mem _ hp))

lemma maxGo_reaches (ci : String) (si : Nat) (post : List (String × Nat))
    (hpost : ∀ p ∈ post, p.2 ≤ si) :
    ∀ pre c0 s0, s0 < si → (∀ p ∈ pre, p.2 < si) →
      maxGo c0 s0 (pre ++ (ci, si) :: post) = ci := by
  intro pre
  induction pre with
  | nil =>
    intro c0 s0 h0 _
    simp only [List.nil_append, maxGo, if_pos h0]
    exact maxGo_of_all_le ci si post hpost
  | cons q pre ih =>
    intro c0 s0 h0 hpre
    obtain ⟨c1, s1⟩ := q
    simp only [List.cons_append, maxGo]
    split_ifs with hlt
    · exact ih c1 s1 (hpre (c1, s1) (List.mem_cons_self _ _))
        (fun p hp => hpre p (List.mem_cons_of_mem _ hp))
    · exact ih c0 s0 h0 (fun p hp => hpre p (List.mem_cons_of_mem _ hp))

lemma maxKeyFirst_firstMax (pre post : List (String × Nat)) (ci : String) (si : Nat)
    (hpre : ∀ p ∈ pre, p.2 < si)
    (hall : ∀ p ∈ pre ++ (ci, si) :: post, p.2 ≤ si) :
    maxKeyFirst (pre ++ (ci, si) :: post) = some ci := by
  have hpost : ∀ p ∈ post, p.2 ≤ si := by
    intro p hp
    exact hall p (List.mem_append_right _ (List.mem_cons_of_mem _ hp))
  cases pre with
  | nil =>
    simp only [List.nil_append, maxKeyFirst]
    exact congrArg some (maxGo_of_all_le ci si post hpost)
  | cons q pre' =>
    obtain ⟨c1, s1⟩ := q
    simp only [List.cons_append, maxKeyFirst]
    refine congrArg some (maxGo_reaches ci si post hpost pre' c1 s1 ?_ ?_)
    · exact hpre (c1, s1) (List.mem_cons_self _ _)
    · exact fun p hp => hpre p (List.mem_cons_of_mem _ hp)

lemma maxGo_mem (c : String) (s : Nat) (t : List (String × Nat)) :
    maxGo c s t ∈ c :: t.map Prod.fst := by
  induction t generalizing c s with
  | nil => exact List.mem_cons_self _ _
  | cons q t ih =>
    obtain ⟨c', s'⟩ := q
    simp only [maxGo]
    split_ifs with hlt
    · simp only [List.map_cons]
      rcases List.mem_cons.mp (ih c' s') with h | h
      · rw [h]; exact List.mem_cons_of_mem _ (List.mem_cons_self _ _)
      · exact List.mem_cons_of_mem _ (List.mem_cons_of_mem _ h)
    · simp only [List.map_cons]
      rcases List.mem_cons.mp (ih c s) with h | h
      · rw [h]; exact List.mem_cons_self _ _
      · exact List.mem_cons_of_mem _ (List.mem_cons_of_mem _ h)

lemma maxKeyFirst_mem (l : List (String × Nat)) (c : String)
    (h : maxKeyFirst l = some c) : c ∈ l.map Prod.fst := by
  cases l with
  | nil => cases h
  | cons q t =>
    obtain ⟨c0, s0⟩ := q
    simp only [maxKeyFirst, Option.some.injEq] at h
    have := maxGo_mem c0 s0 t
    rw [h] at this
    simpa using this

lemma mem_scoredCategories (text : List Char) (z : String × Nat)
    (h : z ∈ scoredCategories text) :
    ∃ q ∈ riskCategories, z = (q.1, categoryScore text q.2) := by
  obtain ⟨q, hq, hz⟩ := List.mem_map.mp h
  exact ⟨q, hq, hz.symm⟩

/-- Claim C6: _classify_single_risk returns the name of the category that
is declared earliest among those attaining the maximal keyword-match count,
provided that count is positive, and returns the fallback category exactly
when no category has any keyword match. -/
theorem claim_c6_classify_single_risk (r : RiskRecord) :
    (∀ pre cat post, riskCategories = pre ++ cat :: post →
      0 < categoryScore (riskText r) cat.2 →
      (∀ q ∈ pre, categoryScore (riskText r) q.2 < categoryScore (riskText r) cat.2) →
      (∀ q ∈ riskCategories, categoryScore (riskText r) q.2 ≤ categoryScore (riskText r) cat.2) →
      classifySingleRisk r = cat.1) ∧
    (classifySingleRisk r = "other" ↔
      ∀ q ∈ riskCategories, categoryScore (riskText r) q.2 = 0) := by
  have hnames : ∀ x ∈ riskCategories, Prod.fst x ≠ "other" := by decide
  constructor
  · intro pre cat post hsplit hpos hpre hall
    have hdecomp : categoryScores (riskText r) =
        ((pre.map (fun p => (p.1, categoryScore (riskText r) p.2))).filter (fun p => 0 < p.2)) ++
          (cat.1, categoryScore (riskText r) cat.2) ::
          ((post.map (fun p => (p.1, categoryScore (riskText r) p.2))).filter (fun p => 0 < p.2)) := by
      unfold categoryScores scoredCategories
      rw [hsplit]
      rw [List.map_append, List.map_cons, List.filter_append, List.filter_cons]
      simp [hpos]
    have hmax : maxKeyFirst (categoryScores (riskText r)) = some cat.1 := by
      rw [hdecomp]
      apply maxKeyFirst_firstMax
      · intro p hp
        obtain ⟨q, hq, hpq⟩ := List.mem_map.mp (List.mem_of_mem_filter hp)
        subst hpq
        exact hpre q hq
      · intro p hp
        rw [← hdecomp] at hp
        obtain ⟨q, hq, hpq⟩ := mem_scoredCategories _ _ (List.mem_of_mem_filter hp)
        subst hpq
        exact hall q hq
    unfold classifySingleRisk
    rw [hmax]
  · constructor
    · intro h q hq
      by_contra hne
      have hposq : 0 < categoryScore (riskText r) q.2 := Nat.pos_of_ne_zero hne
      have hmem : (q.1, categoryScore (riskText r) q.2) ∈ categoryScores (riskText r) := by
        unfold categoryScores scoredCategories
        exact List.mem_filter.mpr ⟨List.mem_map.mpr ⟨q, hq, rfl⟩, by simpa using hposq⟩
      unfold classifySingleRisk at h
      cases hcs : maxKeyFirst (categoryScores (riskText r)) with
      | none =>
        cases hl : categoryScores (riskText r) with
        | nil => rw [hl] at hmem; cases hmem
        | cons a t => rw [hl] at hcs; cases hcs
      | some c =>
        rw [hcs] at h
        subst h
        have hother := maxKeyFirst_mem _ _ hcs
        obtain ⟨z, hz, hz1⟩ := List.mem_map.mp hother
        have hz' := List.mem_of_mem_filter hz
        obtain ⟨q', hq', hzq⟩ := mem_scoredCategories _ _ hz'
        apply hnames q' hq'
        rw [← hz1, hzq]
    · intro h
      have hnil : categoryScores (riskText r) = [] := by
        unfold categoryScores
        apply List.filter_eq_nil_iff.mpr
        intro a ha
        obtain ⟨q, hq, haq⟩ := mem_scoredCategories _ _ ha
        rw [haq]
        simp [h q hq]
      unfold classifySingleRisk
      rw [hnil]
      rfl

/-- Risk record used to exhibit the classification tie-break. -/
def tieRiskRecord : RiskRecord :=
  { title := ("operations debt").toList
    description := []
    category := none
    severity := none }

/-- Witness for claim C6: the text mentions operations (a business keyword)
and debt (a financial keyword) once each; the tie at count one resolves to
the earlier-declared business category. -/
theorem claim_c6_classify_single_risk_witness :
    classifySingleRisk tieRiskRecord = "business_risk" :=
  (claim_c6_classify_single_risk tieRiskRecord).1 []
    (("business_risk"),
      [("business model").toList, ("operations").toList, ("product").toList])
    (riskCategories.tail) rfl (by decide) (by simp) (by decide)

/-! ### Claim C9: risk response parsing -/

/-- Qualification test of the parser: the first character of the stripped
line is a digit, or the line begins with a hyphen bullet marker. -/
def qualifies (line : List Char) : Bool :=
  match line with
  | [] => false
  | c :: _ => c.isDigit || c == '-'

lemma splitFirstColon_no_colon (line : List Char) (h : ':' ∉ line) :
    splitFirstColon line = (line, none) := by
  induction line with
  | nil => rfl
  | cons c rest ih =>
    have hc : ¬(c == ':') = true := by
      intro hb
      exact h (by simp [beq_iff_eq.mp hb])
    have hrest : ':' ∉ rest := fun hm => h (List.mem_cons_of_mem _ hm)
    simp only [splitFirstColon, if_neg hc, ih hrest]

lemma splitFirstColon_first (before after : List Char) (h : ':' ∉ before) :
    splitFirstColon (before ++ ':' :: after) = (before, some after) := by
  induction before with
  | nil => simp [splitFirstColon]
  | cons c rest ih =>
    have hc : ¬(c == ':') = true := by
      intro hb
      exact h (by simp [beq_iff_eq.mp hb])
    have hrest : ':' ∉ rest := fun hm => h (List.mem_cons_of_mem _ hm)
    simp only [List.cons_append, splitFirstColon, if_neg hc, List.append_eq, ih hrest]

lemma parseLines_eq_filterMap (ls : List (List Char)) :
    parseLines ls = ls.filterMap (fun l =>
      if qualifies (pyStrip l) then some (riskRecordOfLine (pyStrip l)) else none) := by
  induction ls with
  | nil => rfl
  | cons l rest ih =>
    rw [List.filterMap_cons]
    cases h : pyStrip l with
    | nil => simpa [parseLines, h, qualifies] using ih
    | cons c line' =>
      by_cases hq : (c.isDigit || c == '-') = true
      · simp [parseLines, h, qualifies, hq, ih]
      · simp [parseLines, h, qualifies, hq, ih]

/-- Claim C9 (amended): _parse_risk_response emits one record per line
whose stripped text is non-blank and qualifies (first character a digit, or
a leading hyphen) and silently drops every other line; a qualifying line is
split at its first colon, the part before it stripped of digits,
punctuation, bullet markers and spaces at both ends becoming the title and
the part after it whitespace-stripped becoming the description; without a
colon the whole stripped line becomes the title and the description is
empty; category and severity start unset, and the numbered example parses
to the expected single record. -/
theorem claim_c9_parse_risk_response :
    (∀ resp : List Char, parseRiskResponse resp =
      (splitOnChar '\n' resp).filterMap (fun l =>
        if qualifies (pyStrip l) then some (riskRecordOfLine (pyStrip l)) else none)) ∧
    parseRiskResponse (("1. Customer Concentration: Heavy dependence on top customers").toList) =
      [⟨("Customer Concentration").toList,
        ("Heavy dependence on top customers").toList, none, none⟩] ∧
    (∀ before after : List Char, ':' ∉ before →
      riskRecordOfLine (before ++ ':' :: after) =
        ⟨pyStripSet titleStripSet before, pyStrip after, none, none⟩) ∧
    (∀ line : List Char, ':' ∉ line →
      riskRecordOfLine line = ⟨pyStripSet titleStripSet line, [], none, none⟩) := by
  refine ⟨?_, by decide, ?_, ?_⟩
  · intro resp
    exact parseLines_eq_filterMap (splitOnChar '\n' resp)
  · intro before after h
    unfold riskRecordOfLine
    rw [splitFirstColon_first before after h]
  · intro line h
    unfold riskRecordOfLine
    rw [splitFirstColon_no_colon line h]

/-- Witness for claim C9: a concrete qualifying line with a colon splits
into the stripped title and the whitespace-stripped description. -/
theorem claim_c9_parse_risk_response_witness :
    riskRecordOfLine (("1. Title").toList ++ ':' :: (" desc").toList) =
      ⟨pyStripSet titleStripSet (("1. Title").toList), pyStrip ((" desc").toList), none, none⟩ :=
  claim_c9_parse_risk_response.2.2.1 (("1. Title").toList) ((" desc").toList) (by decide)

/-- Counterexample for claim C9 as stated: on the line containing the text
Risk 2 before the colon, the code strips digits and spaces from both ends
of the title, producing the title Risk, not the title Risk 2 that trimming
only the leading characters would produce. -/
theorem claim_c9_counterexample :
    parseRiskResponse (("1. Risk 2: desc").toList) =
      [⟨("Risk").toList, ("desc").toList, none, none⟩] ∧
    ¬ parseRiskResponse (("1. Risk 2: desc").toList) =
      [⟨("Risk 2").toList, ("desc").toList, none, none⟩] := by
  exact ⟨by decide, by decide⟩

/-- Raw table whose combined text mentions both revenue and equity. -/
def rawTableDemo : RawTable :=
  { headers := [("Particulars").toList]
    labels := [("Revenue").toList, ("Total Equity").toList] }

/-- Witness for claim C7: a table mentioning both revenue and equity in its
label column is classified as profit-and-loss. -/
theorem claim_c7_identify_statement_type_witness :
    identifyStatementType rawTableDemo = some ("profit_loss") :=
  (claim_c7_identify_statement_type rawTableDemo).2.2.2.2 (by decide) (by decide)

/-! ### Claim C8: year extraction -/

/-- Word-boundary test before a match that starts right after pre, scanned
with prev as the character preceding the whole text: the boundary looks at
the last character of pre, or at prev when pre is empty. -/
def noWordBehind (prev : Option Char) (pre : List Char) : Bool :=
  match pre.getLast? with
  | some p => !isWordChar p
  | none => boundaryBefore prev

/-- Presence of a four-digit token starting with 20 delimited by word
boundaries, together with its numeric value. -/
def hasYear4Tok (col : List Char) (y : ℤ) : Prop :=
  ∃ pre c d post, col = pre ++ '2' :: '0' :: c :: d :: post ∧
    c.isDigit = true ∧ d.isDigit = true ∧
    noWordBehind none pre = true ∧ noWordAhead post = true ∧
    y = 2000 + 10 * (digitVal c : ℤ) + (digitVal d : ℤ)

/-- Presence of an FY marker followed by optional whitespace and a
two-digit token delimited by word boundaries, together with the value the
specification assigns, 2000 plus the two-digit year. -/
def hasFYTok (col : List Char) (y : ℤ) : Prop :=
  ∃ pre sp c d post, col = pre ++ 'F' :: 'Y' :: (sp ++ c :: d :: post) ∧
    sp.all pyIsSpace = true ∧ c.isDigit = true ∧ d.isDigit = true ∧
    noWordBehind none pre = true ∧ noWordAhead post = true ∧
    y = 2000 + 10 * (digitVal c : ℤ) + (digitVal d : ℤ)

lemma char_le_of_isDigit (c : Char) (h : c.isDigit = true) : c ≤ '9' := by
  have h2 := (Bool.and_eq_true _ _).mp h
  exact of_decide_eq_true h2.2

lemma pyIsSpace_of_isDigit (c : Char) (h : c.isDigit = true) : pyIsSpace c = false := by
  cases hs : pyIsSpace c
  · rfl
  · exfalso
    unfold pyIsSpace at hs
    have hle := char_le_of_isDigit c h
    have hge : '0' ≤ c := of_decide_eq_true ((Bool.and_eq_true _ _).mp h).1
    rcases (by simpa using hs :
        ((((c = ' ' ∨ c = '\t') ∨ c = '\n') ∨ c = '\x0d') ∨ c = '\x0b') ∨ c = '\x0c') with
      ((((rfl | rfl) | rfl) | rfl) | rfl) | rfl <;> exact absurd hge (by decide)

lemma isDigit_false_of_pyIsSpace (c : Char) (h : pyIsSpace c = true) : c.isDigit = false := by
  cases hd : c.isDigit
  · rfl
  · rw [pyIsSpace_of_isDigit c hd] at h
    cases h

lemma pyToUpper_of_isDigit (c : Char) (h : c.isDigit = true) : pyToUpper c = c := by
  unfold pyToUpper
  rw [if_neg]
  intro hcond
  have h1 : 'a' ≤ c := of_decide_eq_true ((Bool.and_eq_true _ _).mp hcond).1
  have h2 := char_le_of_isDigit c h
  exact absurd (le_trans h1 h2) (by decide)

lemma beq_F_false_of_isDigit (c : Char) (h : c.isDigit = true) : (c == 'F') = false := by
  cases hb : c == 'F'
  · rfl
  · rw [beq_iff_eq.mp hb] at h
    cases h

lemma tryAlt1_eq_some (s ys : List Char) (h : tryAlt1 s = some ys) :
    ∃ c d post, s = '2' :: '0' :: c :: d :: post ∧
      c.isDigit = true ∧ d.isDigit = true ∧ noWordAhead post = true ∧
      ys = ['2', '0', c, d] := by
  match s with
  | [] => cases h
  | [_] => cases h
  | [_, _] => cases h
  | [_, _, _] => cases h
  | a :: b :: c :: d :: rest =>
    simp only [tryAlt1] at h
    split_ifs at h with hcond
    rw [Bool.and_eq_true, Bool.and_eq_true, Bool.and_eq_true, Bool.and_eq_true] at hcond
    obtain ⟨⟨⟨⟨ha, hb⟩, hc⟩, hd⟩, hr⟩ := hcond
    have hys := (Option.some.injEq _ _).mp h
    rw [beq_iff_eq.mp ha, beq_iff_eq.mp hb]
    exact ⟨c, d, rest, rfl, hc, hd, hr,
      by rw [← hys, beq_iff_eq.mp ha, beq_iff_eq.mp hb]⟩

lemma tryAlt2_eq_some (s ys : List Char) (h : tryAlt2 s = some ys) :
    ∃ sp c d post, s = 'F' :: 'Y' :: (sp ++ c :: d :: post) ∧
      sp.all pyIsSpace = true ∧ c.isDigit = true ∧ d.isDigit = true ∧
      noWordAhead post = true ∧ ys = 'F' :: 'Y' :: (sp ++ [c, d]) := by
  match s with
  | [] => cases h
  | [_] => cases h
  | a :: b :: rest =>
    simp only [tryAlt2] at h
    split_ifs at h with hab
    split at h
    next c d rest3 hdw =>
      split_ifs at h with hcds
      rw [Bool.and_eq_true, Bool.and_eq_true] at hcds
      obtain ⟨⟨hc, hd⟩, hr⟩ := hcds
      rw [Bool.and_eq_true] at hab
      have ha := beq_iff_eq.mp hab.1
      have hb := beq_iff_eq.mp hab.2
      subst ha
      subst hb
      have hys := (Option.some.injEq _ _).mp h
      refine ⟨rest.takeWhile pyIsSpace, c, d, rest3, ?_, ?_, hc, hd, hr, hys.symm⟩
      · show 'F' :: 'Y' :: rest = 'F' :: 'Y' :: (rest.takeWhile pyIsSpace ++ c :: d :: rest3)
        rw [← hdw, List.takeWhile_append_dropWhile]
      · exact List.all_eq_true.mpr (fun x hx => List.mem_takeWhile_imp hx)
    next hdw => cases h

lemma noWordBehind_cons (prev : Option Char) (a : Char) (pre : List Char) :
    noWordBehind prev (a :: pre) = noWordBehind (some a) pre := by
  cases pre with
  | nil => simp [noWordBehind, boundaryBefore, List.getLast?]
  | cons b t =>
    simp only [noWordBehind, List.getLast?_cons_cons]
    cases hl : (b :: t).getLast? with
    | none => simp at hl
    | some p => rfl

lemma searchYear_sound (col : List Char) : ∀ (prev : Option Char) (ys : List Char),
    searchYear prev col = some ys →
    (∃ pre c d post, col = pre ++ '2' :: '0' :: c :: d :: post ∧
      c.isDigit = true ∧ d.isDigit = true ∧
      noWordBehind prev pre = true ∧ noWordAhead post = true ∧ ys = ['2', '0', c, d]) ∨
    (∃ pre sp c d post, col = pre ++ 'F' :: 'Y' :: (sp ++ c :: d :: post) ∧
      sp.all pyIsSpace = true ∧ c.isDigit = true ∧ d.isDigit = true ∧
      noWordBehind prev pre = true ∧ noWordAhead post = true ∧
      ys = 'F' :: 'Y' :: (sp ++ [c, d])) := by
  induction col with
  | nil => intro prev ys h; cases h
  | cons a rest ih =>
    intro prev ys h
    simp only [searchYear] at h
    cases hX : (if boundaryBefore prev = true then
        (tryAlt1 (a :: rest)).orElse (fun _ => tryAlt2 (a :: rest)) else none) with
    | some z =>
      rw [hX] at h
      simp only [Option.orElse] at h
      have hzys : z = ys := (Option.some.injEq _ _).mp h
      subst hzys
      by_cases hb : boundaryBefore prev = true
      · rw [if_pos hb] at hX
        cases hA1 : tryAlt1 (a :: rest) with
        | some w =>
          rw [hA1] at hX
          simp only [Option.orElse] at hX
          have hwz : w = z := (Option.some.injEq _ _).mp hX
          subst hwz
          obtain ⟨c, d, post, hshape, hc, hd, hr, hys⟩ := tryAlt1_eq_some _ _ hA1
          left
          refine ⟨[], c, d, post, by simpa using hshape, hc, hd, ?_, hr, hys⟩
          simpa [noWordBehind] using hb
        | none =>
          rw [hA1] at hX
          simp only [Option.orElse] at hX
          obtain ⟨sp, c, d, post, hshape, hsp, hc, hd, hr, hys⟩ := tryAlt2_eq_some _ _ hX
          right
          refine ⟨[], sp, c, d, post, by simpa using hshape, hsp, hc, hd, ?_, hr, hys⟩
          simpa [noWordBehind] using hb
      · rw [if_neg hb] at hX
        cases hX
    | none =>
      rw [hX] at h
      simp only [Option.orElse] at h
      rcases ih (some a) ys h with
        ⟨pre, c, d, post, hcol, hc, hd, hbl, hbr, hys⟩ |
        ⟨pre, sp, c, d, post, hcol, hsp, hc, hd, hbl, hbr, hys⟩
      · left
        refine ⟨a :: pre, c, d, post, by simp [hcol], hc, hd, ?_, hbr, hys⟩
        rw [noWordBehind_cons]
        exact hbl
      · right
        refine ⟨a :: pre, sp, c, d, post, by simp [hcol], hsp, hc, hd, ?_, hbr, hys⟩
        rw [noWordBehind_cons]
        exact hbl

lemma tryAlt1_isSome_of (c d : Char) (post : List Char)
    (hc : c.isDigit = true) (hd : d.isDigit = true) (hpost : noWordAhead post = true) :
    (tryAlt1 ('2' :: '0' :: c :: d :: post)).isSome = true := by
  simp [tryAlt1, hc, hd, hpost]

lemma dropWhile_append_stop (sp : List Char) (c : Char) (l : List Char)
    (hsp : sp.all pyIsSpace = true) (hc : pyIsSpace c = false) :
    (sp ++ c :: l).dropWhile pyIsSpace = c :: l ∧
      (sp ++ c :: l).takeWhile pyIsSpace = sp := by
  induction sp with
  | nil => simp [List.dropWhile, List.takeWhile, hc]
  | cons s t ih =>
    rw [List.all_cons, Bool.and_eq_true] at hsp
    have h := ih hsp.2
    simp [List.dropWhile, List.takeWhile, hsp.1, h.1, h.2]

lemma tryAlt2_isSome_of (sp : List Char) (c d : Char) (post : List Char)
    (hsp : sp.all pyIsSpace = true) (hc : c.isDigit = true) (hd : d.isDigit = true)
    (hpost : noWordAhead post = true) :
    (tryAlt2 ('F' :: 'Y' :: (sp ++ c :: d :: post))).isSome = true := by
  have hcs : pyIsSpace c = false := pyIsSpace_of_isDigit c hc
  have hdw := (dropWhile_append_stop sp c (d :: post) hsp hcs).1
  simp [tryAlt2, hdw, hc, hd, hpost]

lemma orElse_isSome_right (x : Option (List Char)) (f : Unit → Option (List Char))
    (h : (f ()).isSome = true) : (x.orElse f).isSome = true := by
  cases x <;> simp [Option.orElse, h]

lemma searchYear_isSome_of (pre : List Char) : ∀ (prev : Option Char) (tail : List Char),
    noWordBehind prev pre = true →
    ((tryAlt1 tail).isSome = true ∨ (tryAlt2 tail).isSome = true) →
    (searchYear prev (pre ++ tail)).isSome = true := by
  induction pre with
  | nil =>
    intro prev tail hb halt
    cases tail with
    | nil => simp [tryAlt1, tryAlt2] at halt
    | cons a rest =>
      simp only [List.nil_append, searchYear]
      have hbb : boundaryBefore prev = true := by simpa [noWordBehind] using hb
      rw [if_pos hbb]
      cases h1 : tryAlt1 (a :: rest) with
      | some w => simp [Option.orElse]
      | none =>
        rcases halt with h | h
        · rw [h1] at h
          cases h
        · obtain ⟨w, hw⟩ := Option.isSome_iff_exists.mp h
          simp [Option.orElse, h1, hw]
  | cons p pre' ih =>
    intro prev tail hb halt
    simp only [List.cons_append, searchYear]
    refine orElse_isSome_right _ _ ?_
    exact ih (some p) tail (by rw [← noWordBehind_cons]; exact hb) halt

lemma natFromDigits_four (c d : Char) :
    natFromDigits ['2', '0', c, d] = 2000 + 10 * digitVal c + digitVal d := by
  show ((((0 * 10 + digitVal '2') * 10 + digitVal '0') * 10 + digitVal c) * 10 + digitVal d) =
    2000 + 10 * digitVal c + digitVal d
  have h2 : digitVal '2' = 2 := by decide
  have h0 : digitVal '0' = 0 := by decide
  rw [h2, h0]
  ring

lemma containsFY_false_of_digits (c d : Char) (hc : c.isDigit = true) (hd : d.isDigit = true) :
    containsFY ['2', '0', c, d] = false := by
  have h1 : pyToUpper c = c := pyToUpper_of_isDigit c hc
  have h2 : pyToUpper d = d := pyToUpper_of_isDigit d hd
  have hcF : (c == 'F') = false := beq_F_false_of_isDigit c hc
  have h3 : pyToUpper '2' = '2' := by decide
  have h4 : pyToUpper '0' = '0' := by decide
  simp [containsFY, listContains, listStartsWith, h1, h2, h3, h4, hcF]

lemma containsFY_true_fy (tail : List Char) : containsFY ('F' :: 'Y' :: tail) = true := by
  have h1 : pyToUpper 'F' = 'F' := by decide
  have h2 : pyToUpper 'Y' = 'Y' := by decide
  simp [containsFY, listContains, listStartsWith, h1, h2]

lemma firstTwoDigits_cons_not (a : Char) (l : List Char) (ha : a.isDigit = false) :
    firstTwoDigits (a :: l) = firstTwoDigits l := by
  cases l with
  | nil => simp [firstTwoDigits]
  | cons b t => simp [firstTwoDigits, ha]

lemma firstTwoDigits_fy (sp : List Char) (c d : Char) (hsp : sp.all pyIsSpace = true)
    (hc : c.isDigit = true) (hd : d.isDigit = true) :
    firstTwoDigits ('F' :: 'Y' :: (sp ++ [c, d])) = some (c, d) := by
  rw [firstTwoDigits_cons_not 'F' _ (by decide), firstTwoDigits_cons_not 'Y' _ (by decide)]
  induction sp with
  | nil => simp [firstTwoDigits, hc, hd]
  | cons s t ih =>
    rw [List.all_cons, Bool.and_eq_true] at hsp
    rw [List.cons_append, firstTwoDigits_cons_not s _ (isDigit_false_of_pyIsSpace s hsp.1)]
    exact ih hsp.2

lemma extractYear_alt1_value (col : List Char) (c d : Char)
    (hsearch : searchYear none col = some ['2', '0', c, d])
    (hc : c.isDigit = true) (hd : d.isDigit = true) :
    extractYear col = some (2000 + 10 * (digitVal c : ℤ) + (digitVal d : ℤ)) := by
  simp only [extractYear, hsearch, containsFY_false_of_digits c d hc hd,
    Bool.false_eq_true, if_false]
  have hall : (['2', '0', c, d]).all Char.isDigit = true := by
    simp [hc, hd]
  rw [if_pos hall, natFromDigits_four]
  exact congrArg some (by push_cast; ring)

lemma extractYear_fy_value (col : List Char) (sp : List Char) (c d : Char)
    (hsearch : searchYear none col = some ('F' :: 'Y' :: (sp ++ [c, d])))
    (hsp : sp.all pyIsSpace = true) (hc : c.isDigit = true) (hd : d.isDigit = true) :
    extractYear col = some (2000 + 10 * (digitVal c : ℤ) + (digitVal d : ℤ)) := by
  simp only [extractYear, hsearch, containsFY_true_fy, if_true,
    firstTwoDigits_fy sp c d hsp hc hd]
  exact congrArg some (by push_cast; ring)

lemma extractYear_sound (col : List Char) (y : ℤ) (h : extractYear col = some y) :
    hasYear4Tok col y ∨ hasFYTok col y := by
  cases hs : searchYear none col with
  | none => rw [extractYear, hs] at h; cases h
  | some ys =>
    rcases searchYear_sound col none ys hs with
      ⟨pre, c, d, post, hcol, hc, hd, hbl, hbr, hys⟩ |
      ⟨pre, sp, c, d, post, hcol, hsp, hc, hd, hbl, hbr, hys⟩
    · left
      subst hys
      have hv := extractYear_alt1_value col c d hs hc hd
      rw [h] at hv
      have hy : y = 2000 + 10 * (digitVal c : ℤ) + (digitVal d : ℤ) :=
        (Option.some.injEq _ _).mp hv
      exact ⟨pre, c, d, post, hcol, hc, hd, hbl, hbr, hy⟩
    · right
      subst hys
      have hv := extractYear_fy_value col sp c d hs hsp hc hd
      rw [h] at hv
      have hy : y = 2000 + 10 * (digitVal c : ℤ) + (digitVal d : ℤ) :=
        (Option.some.injEq _ _).mp hv
      exact ⟨pre, sp, c, d, post, hcol, hsp, hc, hd, hbl, hbr, hy⟩

lemma extractYear_isSome_of_search (col : List Char) (ys : List Char)
    (hs : searchYear none col = some ys) : (extractYear col).isSome = true := by
  rcases searchYear_sound col none ys hs with
    ⟨pre, c, d, post, hcol, hc, hd, hbl, hbr, hys⟩ |
    ⟨pre, sp, c, d, post, hcol, hsp, hc, hd, hbl, hbr, hys⟩
  · subst hys
    rw [extractYear_alt1_value col c d hs hc hd]
    rfl
  · subst hys
    rw [extractYear_fy_value col sp c d hs hsp hc hd]
    rfl

lemma extractYear_isSome_of_tok (col : List Char) (y : ℤ)
    (h : hasYear4Tok col y ∨ hasFYTok col y) : (extractYear col).isSome = true := by
  have hsome : (searchYear none col).isSome = true := by
    rcases h with ⟨pre, c, d, post, hcol, hc, hd, hbl, hbr, hy⟩ |
      ⟨pre, sp, c, d, post, hcol, hsp, hc, hd, hbl, hbr, hy⟩
    · rw [hcol]
      exact searchYear_isSome_of pre none _ hbl
        (Or.inl (tryAlt1_isSome_of c d post hc hd hbr))
    · rw [hcol]
      exact searchYear_isSome_of pre none _ hbl
        (Or.inr (tryAlt2_isSome_of sp c d post hsp hc hd hbr))
  obtain ⟨ys, hys⟩ := Option.isSome_iff_exists.mp hsome
  exact extractYear_isSome_of_search col ys hys

/-- Claim C8: _extract_year maps the examples FY 22, 2023 and Q1 to 2022,
2023 and none; every successful extraction comes from a four-digit token
starting with 20 with its own value or from a two-digit token after an FY
marker valued at 2000 plus the two digits; a label containing either kind
of token always yields a year; and a label containing neither yields
nothing, excluding the column rather than raising. -/
theorem claim_c8_extract_year :
    extractYear (("FY 22").toList) = some 2022 ∧
    extractYear (("2023").toList) = some 2023 ∧
    extractYear (("Q1").toList) = none ∧
    (∀ col y, extractYear col = some y → hasYear4Tok col y ∨ hasFYTok col y) ∧
    (∀ col y, hasYear4Tok col y ∨ hasFYTok col y → (extractYear col).isSome = true) ∧
    (∀ col, (¬ ∃ y, hasYear4Tok col y ∨ hasFYTok col y) → extractYear col = none) := by
  refine ⟨by decide, by decide, by decide, extractYear_sound, extractYear_isSome_of_tok, ?_⟩
  intro col hno
  cases h : extractYear col with
  | none => rfl
  | some y => exact absurd ⟨y, extractYear_sound col y h⟩ hno

/-- Witness for claim C8: a label with a leading non-word character and the
four-digit token 2023 contains a year token, so extraction succeeds. -/
theorem claim_c8_extract_year_witness :
    (extractYear (("x 2023").toList)).isSome = true :=
  claim_c8_extract_year.2.2.2.2.1 (("x 2023").toList) 2023
    (Or.inl ⟨['x', ' '], '2', '3', [], by decide, by decide, by decide, by decide,
      by decide, by decide⟩)

/-! ### Claim C1: metric time-series extraction from processed tables -/

lemma extractYear_ne_zero (h : List Char) (y : ℤ) (he : extractYear h = some y) :
    ¬ y = 0 := by
  rcases extractYear_sound h y he with
    ⟨_, _, _, _, _, _, _, _, _, hy⟩ | ⟨_, _, _, _, _, _, _, _, _, _, _, hy⟩ <;>
    (subst hy; intro h0; omega)

lemma isYearHeader_isSome (h : List Char) (hy : isYearHeader h = true) :
    (extractYear h).isSome = true := by
  obtain ⟨ys, hys⟩ := Option.isSome_iff_exists.mp (by simpa [isYearHeader] using hy)
  exact extractYear_isSome_of_search h ys hys

lemma isYearHeader_none (h : List Char) (hy : isYearHeader h = false) :
    extractYear h = none := by
  have hs : searchYear none h = none := by
    cases hsy : searchYear none h with
    | none => rfl
    | some ys => rw [isYearHeader, hsy] at hy; cases hy
  rw [extractYear, hs]

lemma seriesCell_eq_some (p : List Char × Option ℚ) (y : ℤ) (v : ℚ) :
    seriesCell p = some (y, v) ↔ extractYear p.1 = some y ∧ p.2 = some v := by
  constructor
  · intro h
    cases hey : extractYear p.1 with
    | none => simp [seriesCell, hey] at h
    | some y' =>
      cases hc : p.2 with
      | none => simp [seriesCell, hey, hc] at h
      | some v' =>
        have hne : (y' == 0) = false := by
          simpa using extractYear_ne_zero p.1 y' hey
        simp only [seriesCell, hey, hc, hne, Bool.false_eq_true, if_false,
          Option.some.injEq, Prod.mk.injEq] at h
        exact ⟨congrArg some h.1, congrArg some h.2⟩
  · intro h
    have hne : (y == 0) = false := by
      simpa using extractYear_ne_zero p.1 y h.1
    simp [seriesCell, h.1, h.2, hne]

lemma seriesCell_none_of_no_year (p : List Char × Option ℚ)
    (h : extractYear p.1 = none) : seriesCell p = none := by
  simp [seriesCell, h]

lemma dictInsert_fresh (d : List (ℤ × ℚ)) (y : ℤ) (v : ℚ)
    (h : y ∉ d.map Prod.fst) : dictInsert d y v = d ++ [(y, v)] := by
  unfold dictInsert
  rw [if_neg]
  intro hany
  obtain ⟨p, hp, hpy⟩ := List.any_eq_true.mp hany
  exact h (List.mem_map.mpr ⟨p, hp, beq_iff_eq.mp hpy⟩)

lemma dictFold_go (zs : List (List Char × Option ℚ)) :
    ∀ acc : List (ℤ × ℚ),
    (zs.filterMap (fun p => extractYear p.1)).Nodup →
    (∀ y ∈ zs.filterMap (fun p => extractYear p.1), y ∉ acc.map Prod.fst) →
    zs.foldl
      (fun d p => match seriesCell p with | some yv => dictInsert d yv.1 yv.2 | none => d)
      acc = acc ++ zs.filterMap seriesCell := by
  induction zs with
  | nil => intro acc _ _; simp
  | cons p t ih =>
    intro acc hnd hfresh
    rw [List.foldl_cons, List.filterMap_cons]
    cases hsc : seriesCell p with
    | none =>
      cases hey : extractYear p.1 with
      | none =>
        simp only [List.filterMap_cons, hey] at hnd hfresh
        exact ih acc hnd hfresh
      | some y =>
        simp only [List.filterMap_cons, hey] at hnd hfresh
        refine ih acc (List.Nodup.of_cons hnd) ?_
        intro y' hy'
        exact hfresh y' (List.mem_cons_of_mem _ hy')
    | some yv =>
      obtain ⟨y, v⟩ := yv
      have hin := (seriesCell_eq_some p y v).mp hsc
      simp only [List.filterMap_cons, hin.1] at hnd hfresh
      have hyfresh : y ∉ acc.map Prod.fst := hfresh y (List.mem_cons_self _ _)
      dsimp only
      rw [dictInsert_fresh acc y v hyfresh]
      rw [ih (acc ++ [(y, v)]) (List.Nodup.of_cons hnd) ?_]
      · simp
      · intro y' hy'
        rw [List.map_append]
        intro hmem
        rcases List.mem_append.mp hmem with hmem1 | hmem2
        · exact hfresh y' (List.mem_cons_of_mem _ hy') hmem1
        · have : y' = y := by simpa using hmem2
          subst this
          exact (List.nodup_cons.mp hnd).1 hy'

lemma rowSeries_eq_aux (headers : List (List Char)) (cells : List (Option ℚ))
    (hnd : ((headers.zip cells).filterMap (fun p => extractYear p.1)).Nodup) :
    rowSeries headers cells = rowSeriesAux headers cells := by
  unfold rowSeries rowSeriesAux
  rw [dictFold_go (headers.zip cells) [] hnd (by simp)]
  simp

lemma zipKeys_eq (hs : List (List Char)) (cs : List (Option ℚ))
    (hlen : cs.length = hs.length) :
    (hs.zip cs).filterMap (fun p => extractYear p.1) = hs.filterMap extractYear := by
  induction hs generalizing cs with
  | nil => simp
  | cons h t ih =>
    cases cs with
    | nil => simp at hlen
    | cons c cs' =>
      simp only [List.length_cons, Nat.succ.injEq] at hlen
      simp only [List.zip_cons_cons, List.filterMap_cons]
      cases extractYear h <;> simp [ih cs' hlen]

lemma keep_zip_align (hs : List (List Char)) :
    ∀ cs : List (Option ℚ), cs.length = hs.length →
    (hs.filter isYearHeader).zip (keepYearCells hs cs) =
      (hs.zip cs).filter (fun p => isYearHeader p.1) ∧
    (keepYearCells hs cs).length = (hs.filter isYearHeader).length := by
  induction hs with
  | nil =>
    intro cs hlen
    rw [List.length_nil, List.length_eq_zero] at hlen
    subst hlen
    simp [keepYearCells]
  | cons h t ih =>
    intro cs hlen
    cases cs with
    | nil => simp at hlen
    | cons c cs' =>
      simp only [List.length_cons, Nat.succ.injEq] at hlen
      have hrec := ih cs' hlen
      by_cases hy : isYearHeader h = true
      · simp only [keepYearCells, List.zip_cons_cons, List.filter_cons, hy, if_pos,
          List.map_cons]
        constructor
        · show (h :: t.filter isYearHeader).zip
              (c :: ((t.zip cs').filter (fun p => isYearHeader p.1)).map (fun p => p.2)) = _
          rw [List.zip_cons_cons]
          have := hrec.1
          simp only [keepYearCells] at this
          rw [this]
        · have := hrec.2
          simp only [keepYearCells] at this
          simp [this]
      · have hy' : isYearHeader h = false := by simpa using hy
        simp only [keepYearCells, List.zip_cons_cons, List.filter_cons, hy',
          Bool.false_eq_true, if_false]
        have := hrec
        simp only [keepYearCells] at this
        exact this

lemma findMetricRow_skip (pats : List (List Char)) (hs : List (List Char))
    (pre rest : List (List Char × List (Option ℚ)))
    (hpre : ∀ q ∈ pre, rowMatches pats q.1 = false) :
    findMetricRow pats hs (pre ++ rest) = findMetricRow pats hs rest := by
  induction pre with
  | nil => rfl
  | cons q pre' ih =>
    rw [List.cons_append, findMetricRow,
      if_neg (by simp [hpre q (List.mem_cons_self _ _)])]
    exact ih (fun q' hq' => hpre q' (List.mem_cons_of_mem _ hq'))

lemma findMetricRow_all_empty (pats : List (List Char)) (hs : List (List Char))
    (rows : List (List Char × List (Option ℚ)))
    (h : ∀ q ∈ rows, rowSeries hs q.2 = []) :
    findMetricRow pats hs rows = [] := by
  induction rows with
  | nil => rfl
  | cons r rest ih =>
    rw [findMetricRow]
    have hr : rowSeries hs r.2 = [] := h r (List.mem_cons_self _ _)
    have hrest := ih (fun q hq => h q (List.mem_cons_of_mem _ hq))
    split_ifs with hm hemp
    · exact hrest
    · exact hr
    · exact hrest

lemma findMetricRow_hit (pats : List (List Char)) (hs : List (List Char))
    (r : List Char × List (Option ℚ)) (rest : List (List Char × List (Option ℚ)))
    (hm : rowMatches pats r.1 = true) (hne : rowSeries hs r.2 ≠ []) :
    findMetricRow pats hs (r :: rest) = rowSeries hs r.2 := by
  rw [findMetricRow, if_pos hm, if_neg (by simpa [List.isEmpty_iff] using hne)]

lemma processFinancialTable_rect (t : FinTable) (h : t.rect) :
    (processFinancialTable t).rect := by
  unfold processFinancialTable
  split_ifs with hY
  · intro r hr
    simp only [List.mem_filter, List.mem_map] at hr
    obtain ⟨⟨r0, hr0, hr0eq⟩, _⟩ := hr
    subst hr0eq
    exact (keep_zip_align t.headers r0.2 (h r0 hr0)).2
  · intro r hr
    simp only [List.mem_filter, List.mem_map] at hr
    obtain ⟨⟨r0, hr0, hr0eq⟩, _⟩ := hr
    subst hr0eq
    exact h r0 hr0

lemma processed_bridge (t : FinTable) (hrect : t.rect)
    (hnd : ((processFinancialTable t).headers.filterMap extractYear).Nodup)
    (q : List Char × List (Option ℚ)) (hq : q ∈ (processFinancialTable t).rows) :
    rowSeries (processFinancialTable t).headers q.2 =
      rowSeriesAux (processFinancialTable t).headers q.2 :=
  rowSeries_eq_aux _ _
    (by rw [zipKeys_eq _ _ (processFinancialTable_rect t hrect q hq)]; exact hnd)

lemma processed_series_dichotomy (t : FinTable) (hrect : t.rect)
    (hnd : ((processFinancialTable t).headers.filterMap extractYear).Nodup) :
    (∀ q ∈ (processFinancialTable t).rows,
      rowSeries (processFinancialTable t).headers q.2 = []) ∨
    (∀ q ∈ (processFinancialTable t).rows,
      rowSeries (processFinancialTable t).headers q.2 ≠ []) := by
  by_cases hY : t.headers.any isYearHeader = true
  · right
    intro q hq
    rw [processed_bridge t hrect hnd q hq]
    have hhs : (processFinancialTable t).headers = t.headers.filter isYearHeader := by
      unfold processFinancialTable
      rw [if_pos hY]
    have hq' := hq
    unfold processFinancialTable at hq'
    rw [if_pos hY] at hq'
    simp only [List.mem_filter, List.mem_map] at hq'
    obtain ⟨⟨r0, hr0, hr0eq⟩, hanysome⟩ := hq'
    obtain ⟨c, hcmem, hcsome⟩ := List.any_eq_true.mp hanysome
    have hq2 : q.2 = keepYearCells t.headers r0.2 := by rw [← hr0eq]
    rw [hq2] at hcmem
    unfold keepYearCells at hcmem
    obtain ⟨p, hp, hpc⟩ := List.mem_map.mp hcmem
    have hpy : isYearHeader p.1 = true := by
      have := List.mem_filter.mp hp
      simpa using this.2
    obtain ⟨y, hy⟩ := Option.isSome_iff_exists.mp (isYearHeader_isSome p.1 hpy)
    obtain ⟨v, hv⟩ := Option.isSome_iff_exists.mp hcsome
    have hpmem : p ∈ ((processFinancialTable t).headers).zip q.2 := by
      rw [hhs, hq2, (keep_zip_align t.headers r0.2 (hrect r0 hr0)).1]
      exact hp
    have hmem : (y, v) ∈ rowSeriesAux (processFinancialTable t).headers q.2 := by
      unfold rowSeriesAux
      refine List.mem_filterMap.mpr ⟨p, hpmem, ?_⟩
      exact (seriesCell_eq_some p y v).mpr ⟨hy, by rw [hpc, hv]⟩
    intro hnil
    rw [hnil] at hmem
    cases hmem
  · left
    intro q hq
    rw [processed_bridge t hrect hnd q hq]
    have hhs : (processFinancialTable t).headers = t.headers := by
      unfold processFinancialTable
      rw [if_neg hY]
    have hall : ∀ h ∈ t.headers, isYearHeader h = false := by
      intro h hh
      cases hb : isYearHeader h with
      | false => rfl
      | true => exact absurd (List.any_eq_true.mpr ⟨h, hh, hb⟩) hY
    unfold rowSeriesAux
    apply List.filterMap_eq_nil_iff.mpr
    intro p hp
    have hin := (List.of_mem_zip hp).1
    rw [hhs] at hin
    exact seriesCell_none_of_no_year p (isYearHeader_none p.1 (hall p.1 hin))

/-- Claim C1: on a processed financial table (with its year keys distinct,
so its year-to-value mapping is exactly the list of pairs), the metric
extraction scans rows top to bottom: when no row label contains an alias,
the result is empty; the series comes only from the first matching row,
later matching rows being ignored, and is empty exactly when that row
contributes no numeric cell; and a pair is in a row series exactly when
some value column has that recognised year and that numeric cell, skipped
cells never being zero-filled. -/
theorem claim_c1_extract_metric_timeseries (t : FinTable) (metric : String)
    (hrect : t.rect)
    (hnd : ((processFinancialTable t).headers.filterMap extractYear).Nodup) :
    ((∀ r ∈ (processFinancialTable t).rows,
        rowMatches (metricPatterns metric) r.1 = false) →
      extractMetricTimeseries (processFinancialTable t) metric = []) ∧
    (∀ pre r post, (processFinancialTable t).rows = pre ++ r :: post →
      (∀ q ∈ pre, rowMatches (metricPatterns metric) q.1 = false) →
      rowMatches (metricPatterns metric) r.1 = true →
      extractMetricTimeseries (processFinancialTable t) metric =
        rowSeries (processFinancialTable t).headers r.2) ∧
    (∀ r ∈ (processFinancialTable t).rows, ∀ y v,
      ((y, v) ∈ rowSeries (processFinancialTable t).headers r.2 ↔
        ∃ p ∈ ((processFinancialTable t).headers).zip r.2,
          extractYear p.1 = some y ∧ p.2 = some v)) := by
  refine ⟨?_, ?_, ?_⟩
  · intro hall
    unfold extractMetricTimeseries
    have := findMetricRow_skip (metricPatterns metric) (processFinancialTable t).headers
      (processFinancialTable t).rows [] hall
    simpa using this
  · intro pre r post hsplit hpre hm
    have hrmem : r ∈ (processFinancialTable t).rows := by
      rw [hsplit]
      exact List.mem_append_right _ (List.mem_cons_self _ _)
    unfold extractMetricTimeseries
    rw [hsplit, findMetricRow_skip _ _ pre _ hpre]
    rcases processed_series_dichotomy t hrect hnd with hempty | hne
    · rw [hempty r hrmem]
      apply findMetricRow_all_empty
      intro q hq
      refine hempty q ?_
      rw [hsplit]
      exact List.mem_append_right _ hq
    · exact findMetricRow_hit _ _ r post hm (hne r hrmem)
  · intro r hr y v
    rw [processed_bridge t hrect hnd r hr]
    unfold rowSeriesAux
    rw [List.mem_filterMap]
    constructor
    · rintro ⟨p, hp, hcell⟩
      exact ⟨p, hp, (seriesCell_eq_some p y v).mp hcell⟩
    · rintro ⟨p, hp, h1, h2⟩
      exact ⟨p, hp, (seriesCell_eq_some p y v).mpr ⟨h1, h2⟩⟩

/-- Financial table from the module self-test: three FY columns and two
labelled rows. -/
def demoFinTable : FinTable :=
  { headers := [("FY 2021").toList, ("FY 2022").toList, ("FY 2023").toList]
    rows := [(("Revenue").toList, [some 800, some 900, some 1000]),
      (("EBITDA").toList, [some 150, some 180, some 200])] }

/-- Witness for claim C1: on the processed demo table the revenue series is
exactly the series of the first (Revenue) row. -/
theorem claim_c1_extract_metric_timeseries_witness :
    extractMetricTimeseries (processFinancialTable demoFinTable) ("revenue") =
      rowSeries (processFinancialTable demoFinTable).headers
        [some 800, some 900, some 1000] :=
  (claim_c1_extract_metric_timeseries demoFinTable ("revenue")
      (by unfold FinTable.rect; decide) (by decide)).2.1
    [] ((("Revenue").toList, [some 800, some 900, some 1000]))
    [(("EBITDA").toList, [some 150, some 180, some 200])]
    (by decide) (by simp) (by decide)
